import Mathlib

/-!
Verification of the activity-log service's asynchronous ingestion and
cache-coherent persistence core.

The Go source is shallowly embedded:
* `ActivityLog` mirrors `internal/domain/entity.ActivityLog` (the change
  payload `json.RawMessage` becomes `Option String`, the `time.Time`
  creation timestamp becomes an `Int` instant; both are opaque to the code
  under verification).
* `ArangoRepo.*` model the durable-store boundary
  (`ArangoActivityLogRepository`): a document map keyed by id plus a trace
  of interface-level calls, with an `ok` flag standing for transport
  availability.  Per-call effects (duplicate-key on create, not-found on
  read/delete) follow the driver behaviour visible in
  `arango_repository.go`.
* `RedisCache.*` model `infrastructure/cache/redis_cache.go`: a key/value
  table (`String → Option (CacheVal × Nat)`, value plus TTL seconds) with
  `Set`/`Get`/`Delete`/`DeleteByPattern`, each taking an `ok` flag for the
  Redis round trip.  `DeleteByPattern` implements the Redis glob `*`
  wildcard used by the repository.
* `CachedRepo.*` are the cache-aside decorator
  (`CachedActivityLogRepository`), translated clause by clause.
* `NATSConsumer.processActivityLogEvent` is the consumer job handler;
  `json.Unmarshal` is passed in as a parameter, standing for the stdlib
  decoder.
* `applyAction`/`runPool` give a small-step semantics of `WorkerPool`;
  scheduling (which worker moves, and which branch a `select` with several
  ready cases takes) is externalised into the action trace.

Cache-entry expiry is time-dependent and not modelled: every statement is
about the window in which no entry has out-lived its TTL, which is the
window the specification's claims quantify over.
-/

namespace ActivityLogSvc

/-! ## Data model: `entity.ActivityLog` -/

structure ActivityLog where
  ID : String
  ActivityName : String
  CompanyID : String
  ObjectName : String
  ObjectID : String
  Changes : Option String
  FormattedMessage : String
  ActorID : String
  ActorName : String
  ActorEmail : String
  CreatedAt : Int
deriving DecidableEq, Repr

/-- Validation errors of `entity.ActivityLog.IsValid` (handler.go). -/
inductive EntityErr
  | invalidActivityName
  | invalidCompanyID
  | invalidObjectName
  | invalidObjectID
  | invalidFormattedMessage
  | invalidActorID
  | invalidActorName
  | invalidActorEmail
deriving DecidableEq, Repr

/-- Character class `[a-zA-Z0-9._%+-]` of the email regular expression. -/
def isLocalChar (c : Char) : Bool :=
  c.isAlpha || c.isDigit || c = '.' || c = '_' || c = '%' || c = '+' || c = '-'

/-- Character class `[a-zA-Z0-9.-]` of the email regular expression. -/
def isDomainChar (c : Char) : Bool :=
  c.isAlpha || c.isDigit || c = '.' || c = '-'

/-- The part of `^[a-zA-Z0-9._%+-]+@[a-zA-Z0-9.-]+\.[a-zA-Z]{2,}$` after
the `@`: the final `[a-zA-Z]{2,}` segment contains no dot, so a match
exists exactly when splitting at the last dot gives a non-empty run of
domain characters, a dot, and at least two letters. -/
def emailDomainOk (cs : List Char) : Bool :=
  let r := cs.reverse
  let tld := r.takeWhile (fun c => c ≠ '.')
  match r.dropWhile (fun c => c ≠ '.') with
  | [] => false
  | _ :: dRev =>
    decide (tld.length ≥ 2) && tld.all Char.isAlpha &&
      decide (dRev.length > 0) && dRev.all isDomainChar

/-- Splitting a character list at every occurrence of `sep`; always
returns at least one (possibly empty) segment. -/
def splitOnChar (sep : Char) : List Char → List (List Char)
  | [] => [[]]
  | c :: cs =>
    match splitOnChar sep cs with
    | [] => [[]]
    | h :: t => if c = sep then [] :: h :: t else (c :: h) :: t

/-- `isValidEmail` (handler.go): anchored match of
`^[a-zA-Z0-9._%+-]+@[a-zA-Z0-9.-]+\.[a-zA-Z]{2,}$`.  Neither class
contains `@`, so the string must split at `@` into exactly two parts. -/
def isValidEmail (s : String) : Bool :=
  match splitOnChar '@' s.data with
  | [lp, dom] => decide (lp.length > 0) && lp.all isLocalChar && emailDomainOk dom
  | _ => false

/-- `entity.ActivityLog.IsValid` (handler.go), one check per clause in
source order.  `some e` plays the role of a returned error, `none` of
`nil`. -/
def ActivityLog.IsValid (al : ActivityLog) : Option EntityErr :=
  if al.ActivityName = "" then some .invalidActivityName
  else if al.CompanyID = "" then some .invalidCompanyID
  else if al.ObjectName = "" then some .invalidObjectName
  else if al.ObjectID = "" then some .invalidObjectID
  else if al.FormattedMessage = "" then some .invalidFormattedMessage
  else if al.ActorID = "" then some .invalidActorID
  else if al.ActorName = "" then some .invalidActorName
  else if ¬ isValidEmail al.ActorEmail then some .invalidActorEmail
  else none

/-- `entity.NewActivityLog`.  The generated id (`NewActivityLogID`, random)
and `time.Now().UTC()` are environment inputs and appear as parameters. -/
def NewActivityLog (genID : String) (now : Int)
    (activityName companyID objectName objectID : String)
    (changes : Option String)
    (formattedMessage actorID actorName actorEmail : String) : ActivityLog :=
  { ID := genID
    ActivityName := activityName
    CompanyID := companyID
    ObjectName := objectName
    ObjectID := objectID
    Changes := changes
    FormattedMessage := formattedMessage
    ActorID := actorID
    ActorName := actorName
    ActorEmail := actorEmail
    CreatedAt := now }

/-! ## Errors crossing the store and cache boundaries -/

inductive Err
  | transport
  | duplicateKey
  | activityLogNotFound
  | cacheMiss
  | cacheFailure
  | unmarshalFailed (msg : String)
  | invalidChangesJSON
  | invalidActivityLog (e : EntityErr)
  | companyIDRequired
  | publishFailed
deriving DecidableEq, Repr

/-! ## Durable store boundary (`ArangoActivityLogRepository`)

Modelled at the `repository.ActivityLogRepository` interface, which is the
granularity at which the specification counts durable-store calls.  Every
invocation is recorded in `calls` whether or not it succeeds. -/

inductive RepoCall
  | create (id : String)
  | getByID (id : String)
  | getByCompanyID (companyID : String) (page limit : Int)
  | countByCompanyID (companyID : String)
  | delete (id : String)
deriving DecidableEq, Repr

structure RepoState where
  docs : List (String × ActivityLog)
  calls : List RepoCall
deriving DecidableEq, Repr

def RepoState.findDoc (st : RepoState) (id : String) : Option ActivityLog :=
  (st.docs.find? (fun kv => kv.fst == id)).map Prod.snd

def ArangoRepo.create (ok : Bool) (st : RepoState) (al : ActivityLog) :
    Except Err Unit × RepoState :=
  let st := { st with calls := st.calls ++ [.create al.ID] }
  if ¬ ok then (.error .transport, st)
  else if st.docs.any (fun kv => kv.fst == al.ID) then (.error .duplicateKey, st)
  else (.ok (), { st with docs := (al.ID, al) :: st.docs })

def ArangoRepo.getByID (ok : Bool) (st : RepoState) (id : String) :
    Except Err ActivityLog × RepoState :=
  let st := { st with calls := st.calls ++ [.getByID id] }
  if ¬ ok then (.error .transport, st)
  else
    match st.findDoc id with
    | some al => (.ok al, st)
    | none => (.error .activityLogNotFound, st)

/-- Insertion of one record into a list sorted by `CreatedAt` descending
(the `SORT log.created_at DESC` of the AQL query). -/
def insertByCreatedAtDesc (al : ActivityLog) : List ActivityLog → List ActivityLog
  | [] => [al]
  | b :: bs =>
    if al.CreatedAt ≥ b.CreatedAt then al :: b :: bs
    else b :: insertByCreatedAtDesc al bs

def sortByCreatedAtDesc (ls : List ActivityLog) : List ActivityLog :=
  ls.foldr insertByCreatedAtDesc []

def ArangoRepo.getByCompanyID (ok : Bool) (st : RepoState)
    (companyID : String) (page limit : Int) :
    Except Err (List ActivityLog × Int) × RepoState :=
  let st := { st with calls := st.calls ++ [.getByCompanyID companyID page limit] }
  if ¬ ok then (.error .transport, st)
  else
    let matching := (st.docs.map Prod.snd).filter (fun al => al.CompanyID == companyID)
    let sorted := sortByCreatedAtDesc matching
    let offset := (page - 1) * limit
    (.ok ((sorted.drop offset.toNat).take limit.toNat, (matching.length : Int)), st)

def ArangoRepo.countByCompanyID (ok : Bool) (st : RepoState) (companyID : String) :
    Except Err Int × RepoState :=
  let st := { st with calls := st.calls ++ [.countByCompanyID companyID] }
  if ¬ ok then (.error .transport, st)
  else
    let n := ((st.docs.map Prod.snd).filter (fun al => al.CompanyID == companyID)).length
    (.ok (n : Int), st)

def ArangoRepo.delete (ok : Bool) (st : RepoState) (id : String) :
    Except Err Unit × RepoState :=
  let st := { st with calls := st.calls ++ [.delete id] }
  if ¬ ok then (.error .transport, st)
  else if st.docs.any (fun kv => kv.fst == id) then
    (.ok (), { st with docs := st.docs.filter (fun kv => ¬ kv.fst == id) })
  else (.error .activityLogNotFound, st)

/-! ## Ephemeral cache boundary (`RedisCache`) -/

/-- The three shapes of serialized value the repository ever caches: a
single record (`activity_log:` keys), a page of records with its total
(`company_activity_logs:` keys), and a count (`activity_log_count:` keys).
`Get` into a destination of a different shape fails to unmarshal, which
callers treat like any other cache error. -/
inductive CacheVal
  | item (al : ActivityLog)
  | page (logs : List ActivityLog) (total : Int)
  | count (n : Int)
deriving DecidableEq, Repr

/-- Cache contents: key to (value, TTL seconds). -/
def CacheState : Type := String → Option (CacheVal × Nat)

/-- Redis glob matching restricted to the `*` wildcard, the only
metacharacter in the patterns this repository issues (`KEYS pattern`):
`*` matches any (possibly empty) sequence, every other character matches
itself. -/
def globMatch : List Char → List Char → Bool
  | [], s => s.isEmpty
  | p :: ps, s =>
    if p = '*' then s.tails.any (fun t => globMatch ps t)
    else
      match s with
      | [] => false
      | c :: cs => p == c && globMatch ps cs

def RedisCache.Set (ok : Bool) (c : CacheState) (key : String) (v : CacheVal) (ttl : Nat) :
    Except Err Unit × CacheState :=
  if ok then (.ok (), fun k => if k = key then some (v, ttl) else c k)
  else (.error .cacheFailure, c)

def RedisCache.Get (ok : Bool) (c : CacheState) (key : String) : Except Err CacheVal :=
  if ¬ ok then .error .cacheFailure
  else
    match c key with
    | some (v, _) => .ok v
    | none => .error .cacheMiss

def RedisCache.Delete (ok : Bool) (c : CacheState) (key : String) :
    Except Err Unit × CacheState :=
  if ok then (.ok (), fun k => if k = key then none else c k)
  else (.error .cacheFailure, c)

def RedisCache.DeleteByPattern (ok : Bool) (c : CacheState) (pat : String) :
    Except Err Unit × CacheState :=
  if ok then (.ok (), fun k => if globMatch pat.data k.data then none else c k)
  else (.error .cacheFailure, c)

/-- `BuildActivityLogCacheKey` (redis_cache.go). -/
def BuildActivityLogCacheKey (id : String) : String :=
  "activity_log:" ++ id

/-- `BuildCompanyActivityLogsCacheKey` (redis_cache.go). -/
def BuildCompanyActivityLogsCacheKey (companyID : String) (page limit : Int) : String :=
  "company_activity_logs:" ++ companyID ++ ":page:" ++ toString page ++ ":limit:" ++ toString limit

/-- `BuildActivityLogCountCacheKey` (redis_cache.go). -/
def BuildActivityLogCountCacheKey (companyID : String) : String :=
  "activity_log_count:" ++ companyID

/-! ## Cache-aside decorator (`CachedActivityLogRepository`)

Each operation takes one `ok` flag per cache round trip it performs,
standing for the availability of Redis on that call.  The durable-store
flag plays the same role for the Arango round trip. -/

structure SysState where
  repo : RepoState
  cache : CacheState

def invalidateCompanyCache (patOk countDelOk : Bool) (c : CacheState) (companyID : String) :
    Except Err Unit × CacheState :=
  match RedisCache.DeleteByPattern patOk c ("company_activity_logs:" ++ companyID ++ ":*") with
  | (.error e, c1) => (.error e, c1)
  | (.ok _, c1) =>
    match RedisCache.Delete countDelOk c1 (BuildActivityLogCountCacheKey companyID) with
    | (.error e, c2) => (.error e, c2)
    | (.ok _, c2) => (.ok (), c2)

structure CreateFlags where
  repoOk : Bool
  setOk : Bool
  patOk : Bool
  countDelOk : Bool

/-- `CachedActivityLogRepository.Create`: durable write first; on success
the item-cache set (TTL 1 h) and the tenant-wide invalidation are
best-effort, their errors logged and swallowed. -/
def CachedRepo.Create (f : CreateFlags) (st : SysState) (al : ActivityLog) :
    Except Err Unit × SysState :=
  match ArangoRepo.create f.repoOk st.repo al with
  | (.error e, r1) => (.error e, { st with repo := r1 })
  | (.ok _, r1) =>
    let c1 := (RedisCache.Set f.setOk st.cache (BuildActivityLogCacheKey al.ID) (.item al) 3600).2
    let c2 := (invalidateCompanyCache f.patOk f.countDelOk c1 al.CompanyID).2
    (.ok (), { repo := r1, cache := c2 })

structure GetFlags where
  getOk : Bool
  repoOk : Bool
  setOk : Bool

/-- `CachedActivityLogRepository.GetByID`: cache first, durable store on
miss or cache error, then best-effort repopulation with the same TTL. -/
def CachedRepo.GetByID (f : GetFlags) (st : SysState) (id : String) :
    Except Err ActivityLog × SysState :=
  let key := BuildActivityLogCacheKey id
  match RedisCache.Get f.getOk st.cache key with
  | .ok (.item al) => (.ok al, st)
  | _ =>
    match ArangoRepo.getByID f.repoOk st.repo id with
    | (.error e, r1) => (.error e, { st with repo := r1 })
    | (.ok al, r1) =>
      let c1 := (RedisCache.Set f.setOk st.cache key (.item al) 3600).2
      (.ok al, { repo := r1, cache := c1 })

structure ListFlags where
  getOk : Bool
  repoOk : Bool
  setOk : Bool
  itemSetOk : String → Bool

/-- `CachedActivityLogRepository.GetByCompanyID`: combined page+total entry
under the (tenant, page, limit) key with TTL 30 min, plus best-effort
back-fill of each record's item entry. -/
def CachedRepo.GetByCompanyID (f : ListFlags) (st : SysState)
    (companyID : String) (page limit : Int) :
    Except Err (List ActivityLog × Int) × SysState :=
  let key := BuildCompanyActivityLogsCacheKey companyID page limit
  match RedisCache.Get f.getOk st.cache key with
  | .ok (.page logs total) => (.ok (logs, total), st)
  | _ =>
    match ArangoRepo.getByCompanyID f.repoOk st.repo companyID page limit with
    | (.error e, r1) => (.error e, { st with repo := r1 })
    | (.ok (logs, total), r1) =>
      let c1 := (RedisCache.Set f.setOk st.cache key (.page logs total) 1800).2
      let c2 := logs.foldl
        (fun c al =>
          (RedisCache.Set (f.itemSetOk al.ID) c (BuildActivityLogCacheKey al.ID) (.item al) 3600).2)
        c1
      (.ok (logs, total), { repo := r1, cache := c2 })

structure CountFlags where
  getOk : Bool
  repoOk : Bool
  setOk : Bool

/-- `CachedActivityLogRepository.CountByCompanyID`: count entry, TTL 5 min. -/
def CachedRepo.CountByCompanyID (f : CountFlags) (st : SysState) (companyID : String) :
    Except Err Int × SysState :=
  let key := BuildActivityLogCountCacheKey companyID
  match RedisCache.Get f.getOk st.cache key with
  | .ok (.count n) => (.ok n, st)
  | _ =>
    match ArangoRepo.countByCompanyID f.repoOk st.repo companyID with
    | (.error e, r1) => (.error e, { st with repo := r1 })
    | (.ok n, r1) =>
      let c1 := (RedisCache.Set f.setOk st.cache key (.count n) 300).2
      (.ok n, { repo := r1, cache := c1 })

structure DeleteFlags where
  get : GetFlags
  repoOk : Bool
  delOk : Bool
  patOk : Bool
  countDelOk : Bool

/-- `CachedActivityLogRepository.Delete`: a best-effort `GetByID` first
(only to learn the company id), durable delete, item-key cache delete, and
tenant invalidation only when the lookup produced a record. -/
def CachedRepo.Delete (f : DeleteFlags) (st : SysState) (id : String) :
    Except Err Unit × SysState :=
  let lk := CachedRepo.GetByID f.get st id
  let st1 := lk.2
  match ArangoRepo.delete f.repoOk st1.repo id with
  | (.error e, r2) => (.error e, { st1 with repo := r2 })
  | (.ok _, r2) =>
    let c1 := (RedisCache.Delete f.delOk st1.cache (BuildActivityLogCacheKey id)).2
    match lk.1 with
    | .ok al =>
      let c2 := (invalidateCompanyCache f.patOk f.countDelOk c1 al.CompanyID).2
      (.ok (), { repo := r2, cache := c2 })
    | .error _ => (.ok (), { repo := r2, cache := c1 })

/-! ## Application use case (`ActivityLogUseCase`) -/

structure CreateActivityLogRequest where
  ActivityName : String
  CompanyID : String
  ObjectName : String
  ObjectID : String
  Changes : String
  FormattedMessage : String
  ActorID : String
  ActorName : String
  ActorEmail : String
deriving DecidableEq, Repr

/-- `ActivityLogUseCase.CreateActivityLog`.  `jsonValid` stands for the
stdlib `json.Valid`; `genID` and `now` for the id generator and clock used
inside `NewActivityLog`; `publishOk` for the NATS publisher (`none` when
the publisher is nil, as in the consumer wiring).  The mailer runs in a
detached goroutine whose error is logged and ignored, so it has no place
in the returned value or state. -/
def ActivityLogUseCase.CreateActivityLog
    (jsonValid : String → Bool) (genID : String) (now : Int)
    (repoOk : Bool) (publishOk : Option Bool)
    (st : RepoState) (req : CreateActivityLogRequest) :
    Except Err ActivityLog × RepoState :=
  if req.Changes ≠ "" ∧ ¬ jsonValid req.Changes then (.error .invalidChangesJSON, st)
  else
    let changes : Option String := if req.Changes = "" then none else some req.Changes
    let al := NewActivityLog genID now req.ActivityName req.CompanyID req.ObjectName
      req.ObjectID changes req.FormattedMessage req.ActorID req.ActorName req.ActorEmail
    match al.IsValid with
    | some e => (.error (.invalidActivityLog e), st)
    | none =>
      match ArangoRepo.create repoOk st al with
      | (.error e, st1) => (.error e, st1)
      | (.ok _, st1) =>
        match publishOk with
        | some false => (.error .publishFailed, st1)
        | _ => (.ok al, st1)

/-- `ActivityLogUseCase.ListActivityLogs`: reject an empty company id,
clamp `page` and `limit`, then query the store. -/
def ActivityLogUseCase.ListActivityLogs (repoOk : Bool) (st : RepoState)
    (companyID : String) (page limit : Int) :
    Except Err (List ActivityLog × Int) × RepoState :=
  if companyID = "" then (.error .companyIDRequired, st)
  else
    let page := if page < 1 then 1 else page
    let limit := if limit < 1 ∨ limit > 100 then 10 else limit
    match ArangoRepo.getByCompanyID repoOk st companyID page limit with
    | (.error e, st1) => (.error e, st1)
    | (.ok res, st1) => (.ok res, st1)

/-! ## Event consumer (`NATSConsumer`) -/

/-- `event.ActivityLogCreated` (the stream payload).  The Go field
`ActivityLog *entity.ActivityLog` is spelled `activityLog` here to avoid
shadowing the record type. -/
structure ActivityLogCreated where
  EventID : String
  EventType : String
  AggregateID : String
  activityLog : ActivityLog
  TimestampNanos : Int
  Version : Int
deriving DecidableEq, Repr

/-- `NATSConsumer.processActivityLogEvent`, the body of every job handler
the consumer submits: unmarshal the payload, then hand the embedded record
straight to the store's create — there is no validation step between the
two.  `unmarshal` stands for `json.Unmarshal`. -/
def NATSConsumer.processActivityLogEvent
    (unmarshal : String → Except String ActivityLogCreated)
    (repoOk : Bool) (st : RepoState) (data : String) :
    Except Err Unit × RepoState :=
  match unmarshal data with
  | .error m => (.error (.unmarshalFailed m), st)
  | .ok ev =>
    match ArangoRepo.create repoOk st ev.activityLog with
    | (.error e, st1) => (.error e, st1)
    | (.ok _, st1) => (.ok (), st1)

/-! ## Worker pool (`WorkerPool`)

Small-step semantics.  The scheduler is externalised: an action trace
says which worker takes or finishes a job, when `Stop` closes the quit
channel, and which branch a `select` with several ready cases commits to
(the Go runtime chooses uniformly among ready cases).  The per-job 30 s
handler timeout is real time and outside the model. -/

def workerPoolQueueCapacity : Nat := 100

/-- A `Job`.  `hasOnSuccess`/`hasOnError` record whether the corresponding
callback field is non-nil (the worker checks for nil before invoking). -/
structure Job where
  ID : String
  Data : String
  Handler : String → Except Err Unit
  hasOnSuccess : Bool
  hasOnError : Bool

/-- A callback invocation, the observable outcome of one job execution. -/
inductive PEvent
  | success (jobId : String)
  | failure (jobId : String) (e : Err)
deriving DecidableEq, Repr

def PEvent.jobId : PEvent → String
  | .success i => i
  | .failure i _ => i

def PEvent.isFailure : PEvent → Bool
  | .success _ => false
  | .failure _ _ => true

inductive WStatus
  | idle
  | processing (j : Job)
  | exited

def WStatus.procJob? : WStatus → Option Job
  | .processing j => some j
  | _ => none

structure PoolState where
  jobQueue : List Job
  quitClosed : Bool
  workers : List WStatus
  events : List PEvent

inductive PAction
  | submit (j : Job) (pickQuit : Bool)
  | stop
  | take (w : Nat)
  | finish (w : Nat)
  | quit (w : Nat)

/-- One scheduler-chosen step.  `submit j pickQuit`: when the quit channel
is closed and the queue also has room, both select cases are ready and
`pickQuit` records the runtime's choice; a full queue forces the quit
case, and an open quit channel with a full queue blocks the producer (no
transition).  `take`/`finish` are the two halves of a worker's job case;
`quit` is its quit case, available only once `Stop` has closed the
channel. -/
def applyAction (st : PoolState) (a : PAction) : PoolState :=
  match a with
  | .submit j pickQuit =>
    if st.quitClosed ∧ (st.jobQueue.length ≥ workerPoolQueueCapacity ∨ pickQuit) then st
    else if st.jobQueue.length < workerPoolQueueCapacity then
      { st with jobQueue := st.jobQueue ++ [j] }
    else st
  | .stop => { st with quitClosed := true }
  | .take w =>
    match st.workers[w]? with
    | some .idle =>
      match st.jobQueue with
      | j :: rest => { st with jobQueue := rest, workers := st.workers.set w (.processing j) }
      | [] => st
    | _ => st
  | .finish w =>
    match st.workers[w]? with
    | some (.processing j) =>
      let evs :=
        match j.Handler j.Data with
        | .ok _ => if j.hasOnSuccess then [PEvent.success j.ID] else []
        | .error e => if j.hasOnError then [PEvent.failure j.ID e] else []
      { st with workers := st.workers.set w .idle, events := st.events ++ evs }
    | _ => st
  | .quit w =>
    if st.quitClosed then
      match st.workers[w]? with
      | some .idle => { st with workers := st.workers.set w .exited }
      | _ => st
    else st

def runPool (st : PoolState) (acts : List PAction) : PoolState :=
  acts.foldl applyAction st

def submittedJobs (acts : List PAction) : List Job :=
  acts.filterMap (fun a => match a with | .submit j _ => some j | _ => none)

def pendingJobs (st : PoolState) : List Job :=
  st.jobQueue ++ st.workers.filterMap WStatus.procJob?

def pendingIds (st : PoolState) : List String :=
  (pendingJobs st).map Job.ID

def eventIds (st : PoolState) : List String :=
  st.events.map PEvent.jobId

/-- `jobAbsent st i` holds when no trace of a job with id `i` exists in the
pool: not queued, not being processed, and no callback of it ever fired. -/
def jobAbsent (st : PoolState) (i : String) : Bool :=
  st.jobQueue.all (fun j => j.ID ≠ i) &&
    st.workers.all (fun w => w.procJob?.map Job.ID ≠ some i) &&
    st.events.all (fun e => e.jobId ≠ i)

/-- The callback recorded by `e` is exactly the one the worker loop fires
for job `j`: the kind matches the handler outcome and a failure carries
the handler's error. -/
def callbackMatches (j : Job) : PEvent → Prop
  | .success i => i = j.ID ∧ j.Handler j.Data = .ok () ∧ j.hasOnSuccess = true
  | .failure i e => i = j.ID ∧ j.Handler j.Data = .error e ∧ j.hasOnError = true

/-! ## Shared helper lemmas and concrete fixtures -/

/-- The durable query records its interface-level call whether or not the
round trip succeeds. -/
lemma arango_getByCompanyID_calls (ok : Bool) (st : RepoState) (cid : String) (page limit : Int) :
    (ArangoRepo.getByCompanyID ok st cid page limit).2.calls =
      st.calls ++ [RepoCall.getByCompanyID cid page limit] := by
  cases ok <;> rfl

lemma arango_countByCompanyID_calls (ok : Bool) (st : RepoState) (cid : String) :
    (ArangoRepo.countByCompanyID ok st cid).2.calls =
      st.calls ++ [RepoCall.countByCompanyID cid] := by
  cases ok <;> rfl

/-- The example record of the specification's example scenario. -/
def sampleLog : ActivityLog :=
  { ID := "id1"
    ActivityName := "user_created"
    CompanyID := "acme"
    ObjectName := "user"
    ObjectID := "u-1"
    Changes := none
    FormattedMessage := "User u-1 created"
    ActorID := "a1"
    ActorName := "Admin"
    ActorEmail := "admin@acme.test"
    CreatedAt := 0 }

/-! ## C2 — Create is write-through and never propagates cache errors -/

/-- **C2.** If the durable-store create fails, `Create` returns that error
and leaves the cache untouched (no item set, no tenant invalidation); if
the durable-store create succeeds, `Create` reports success for every
combination of cache outcomes. -/
theorem c2_create_write_through :
    (∀ (f : CreateFlags) (st : SysState) (al : ActivityLog) (e : Err) (r1 : RepoState),
      ArangoRepo.create f.repoOk st.repo al = (.error e, r1) →
      CachedRepo.Create f st al = (.error e, { st with repo := r1 })) ∧
    (∀ (f : CreateFlags) (st : SysState) (al : ActivityLog) (r1 : RepoState),
      ArangoRepo.create f.repoOk st.repo al = (.ok (), r1) →
      (CachedRepo.Create f st al).1 = .ok ()) := by
  constructor
  · intro f st al e r1 h
    simp [CachedRepo.Create, h]
  · intro f st al r1 h
    simp [CachedRepo.Create, h]

/-- **C2 witness.** A duplicate-key durable failure with an available
cache: the error surfaces and the cache function is returned unchanged;
and a fresh create with every cache round trip failing still reports
success. -/
theorem c2_create_write_through_witness :
    CachedRepo.Create ⟨true, true, true, true⟩
        ⟨{ docs := [("id1", sampleLog)], calls := [] }, fun _ => none⟩ sampleLog =
      (.error .duplicateKey,
        { repo := { docs := [("id1", sampleLog)], calls := [RepoCall.create "id1"] },
          cache := fun _ => none }) ∧
    (CachedRepo.Create ⟨true, false, false, false⟩
        ⟨{ docs := [], calls := [] }, fun _ => none⟩ sampleLog).1 = .ok () := by
  constructor
  · exact c2_create_write_through.1 ⟨true, true, true, true⟩
      ⟨{ docs := [("id1", sampleLog)], calls := [] }, fun _ => none⟩ sampleLog .duplicateKey
      { docs := [("id1", sampleLog)], calls := [RepoCall.create "id1"] } rfl
  · exact c2_create_write_through.2 ⟨true, false, false, false⟩
      ⟨{ docs := [], calls := [] }, fun _ => none⟩ sampleLog
      { docs := [("id1", sampleLog)], calls := [RepoCall.create "id1"] } rfl

/-! ## C9 — list pagination normalization -/

/-- **C9.** `ListActivityLogs` rejects an empty company id without calling
the store; otherwise it calls the store exactly once with page clamped to
1 when below 1 and limit replaced by 10 when outside 1..100, passing both
through unchanged otherwise. -/
theorem c9_list_pagination_normalized :
    (∀ (ok : Bool) (st : RepoState) (page limit : Int),
      ActivityLogUseCase.ListActivityLogs ok st "" page limit = (.error .companyIDRequired, st)) ∧
    (∀ (ok : Bool) (st : RepoState) (cid : String) (page limit : Int), cid ≠ "" →
      (ActivityLogUseCase.ListActivityLogs ok st cid page limit).2.calls =
        st.calls ++ [RepoCall.getByCompanyID cid (if page < 1 then 1 else page)
          (if limit < 1 ∨ limit > 100 then 10 else limit)]) := by
  constructor
  · intro ok st page limit
    simp [ActivityLogUseCase.ListActivityLogs]
  · intro ok st cid page limit h
    have hcalls := arango_getByCompanyID_calls ok st cid
      (if page < 1 then 1 else page) (if limit < 1 ∨ limit > 100 then 10 else limit)
    unfold ActivityLogUseCase.ListActivityLogs
    rcases hq : ArangoRepo.getByCompanyID ok st cid
      (if page < 1 then 1 else page) (if limit < 1 ∨ limit > 100 then 10 else limit)
      with ⟨r, st1⟩
    rw [hq] at hcalls
    cases r <;> simp [h, hq] <;> exact hcalls

/-- **C9 witness.** Concrete instances of every branch: empty company id;
page 0 and limit 0 normalized to 1 and 10; in-range page and limit passed
through. -/
theorem c9_list_pagination_normalized_witness :
    ActivityLogUseCase.ListActivityLogs true ⟨[], []⟩ "" 1 10 =
      (.error .companyIDRequired, ⟨[], []⟩) ∧
    (ActivityLogUseCase.ListActivityLogs true ⟨[], []⟩ "acme" 0 0).2.calls =
      [RepoCall.getByCompanyID "acme" 1 10] ∧
    (ActivityLogUseCase.ListActivityLogs true ⟨[], []⟩ "acme" 3 25).2.calls =
      [RepoCall.getByCompanyID "acme" 3 25] := by
  refine ⟨c9_list_pagination_normalized.1 true ⟨[], []⟩ 1 10, ?_, ?_⟩
  · have h := c9_list_pagination_normalized.2 true ⟨[], []⟩ "acme" 0 0 (by decide)
    simpa using h
  · have h := c9_list_pagination_normalized.2 true ⟨[], []⟩ "acme" 3 25 (by decide)
    simpa using h

/-! ## C8 — validation characterisation and use-case rejection -/

/-- **C8.** `IsValid` accepts exactly when activity name, company id,
object name, object id, formatted message, actor id and actor name are
non-empty and the actor email matches the email regular expression (the
change payload is never inspected); and `CreateActivityLog` returns a
validation error without touching the store for any request violating
this. -/
theorem c8_validation_characterisation :
    (∀ al : ActivityLog, al.IsValid = none ↔
      (al.ActivityName ≠ "" ∧ al.CompanyID ≠ "" ∧ al.ObjectName ≠ "" ∧ al.ObjectID ≠ "" ∧
        al.FormattedMessage ≠ "" ∧ al.ActorID ≠ "" ∧ al.ActorName ≠ "" ∧
        isValidEmail al.ActorEmail = true)) ∧
    (∀ (jsonValid : String → Bool) (genID : String) (now : Int) (repoOk : Bool)
        (publishOk : Option Bool) (st : RepoState) (req : CreateActivityLogRequest),
      ¬ (req.ActivityName ≠ "" ∧ req.CompanyID ≠ "" ∧ req.ObjectName ≠ "" ∧ req.ObjectID ≠ "" ∧
          req.FormattedMessage ≠ "" ∧ req.ActorID ≠ "" ∧ req.ActorName ≠ "" ∧
          isValidEmail req.ActorEmail = true) →
      ∃ e, ActivityLogUseCase.CreateActivityLog jsonValid genID now repoOk publishOk st req =
        (.error e, st)) := by
  have hiff : ∀ al : ActivityLog, al.IsValid = none ↔
      (al.ActivityName ≠ "" ∧ al.CompanyID ≠ "" ∧ al.ObjectName ≠ "" ∧ al.ObjectID ≠ "" ∧
        al.FormattedMessage ≠ "" ∧ al.ActorID ≠ "" ∧ al.ActorName ≠ "" ∧
        isValidEmail al.ActorEmail = true) := by
    intro al
    unfold ActivityLog.IsValid
    split_ifs with h1 h2 h3 h4 h5 h6 h7 h8 <;> simp_all
  refine ⟨hiff, ?_⟩
  intro jsonValid genID now repoOk publishOk st req hbad
  by_cases hc : req.Changes ≠ "" ∧ ¬ jsonValid req.Changes
  · exact ⟨.invalidChangesJSON, by simp [ActivityLogUseCase.CreateActivityLog, hc]⟩
  · rcases hv : (NewActivityLog genID now req.ActivityName req.CompanyID req.ObjectName
        req.ObjectID (if req.Changes = "" then none else some req.Changes)
        req.FormattedMessage req.ActorID req.ActorName req.ActorEmail).IsValid with _ | e
    · exact absurd ((hiff _).mp hv) hbad
    · refine ⟨.invalidActivityLog e, ?_⟩
      simp [ActivityLogUseCase.CreateActivityLog, hc, hv]
      tauto

/-- **C8 witness.** The iff at the example record, and the use case
rejecting (without a store call) a request whose only defect is a
malformed actor email. -/
theorem c8_validation_characterisation_witness :
    sampleLog.IsValid = none ∧
    (∃ e, ActivityLogUseCase.CreateActivityLog (fun _ => true) "id9" 0 true none ⟨[], []⟩
      { ActivityName := "user_created", CompanyID := "acme", ObjectName := "user",
        ObjectID := "u-1", Changes := "", FormattedMessage := "m", ActorID := "a1",
        ActorName := "Admin", ActorEmail := "not-an-email" } = (.error e, ⟨[], []⟩)) := by
  constructor
  · exact (c8_validation_characterisation.1 sampleLog).mpr (by decide)
  · exact c8_validation_characterisation.2 (fun _ => true) "id9" 0 true none ⟨[], []⟩
      { ActivityName := "user_created", CompanyID := "acme", ObjectName := "user",
        ObjectID := "u-1", Changes := "", FormattedMessage := "m", ActorID := "a1",
        ActorName := "Admin", ActorEmail := "not-an-email" } (by decide)

/-! ## C5 — the consumer's job handler does not validate -/

/-- A record failing validation (empty activity name) wrapped in a stream
event, as a payload the consumer can deserialize. -/
def invalidEventLog : ActivityLog :=
  { sampleLog with ActivityName := "" }

def invalidEvent : ActivityLogCreated :=
  { EventID := "evt-1"
    EventType := "activity_log_created"
    AggregateID := "id1"
    activityLog := invalidEventLog
    TimestampNanos := 0
    Version := 1 }

/-- **C5 counterexample.** A payload that deserializes successfully but
fails record validation does *not* make the handler fail: with the store
reachable, `processActivityLogEvent` returns success and the invalid
record is persisted, because the handler never invokes `IsValid`. -/
theorem c5_counterexample_invalid_record_persisted :
    invalidEvent.activityLog.IsValid = some .invalidActivityName ∧
    NATSConsumer.processActivityLogEvent (fun _ => .ok invalidEvent) true ⟨[], []⟩ "payload" =
      (.ok (), { docs := [("id1", invalidEventLog)], calls := [RepoCall.create "id1"] }) := by
  exact ⟨rfl, rfl⟩

/-- **C5 amended.** The handler deserializes the payload and passes the
embedded record straight to the store's create, with no validation step:
whenever deserialization yields an event whose record id is fresh and the
store is reachable, the handler succeeds and the record is persisted —
whether or not the record passes `IsValid`. -/
theorem c5_amended_handler_skips_validation
    (ev : ActivityLogCreated) (st : RepoState) (data : String)
    (hfresh : st.docs.any (fun kv => kv.fst == ev.activityLog.ID) = false) :
    NATSConsumer.processActivityLogEvent (fun _ => .ok ev) true st data =
      (.ok (), { docs := (ev.activityLog.ID, ev.activityLog) :: st.docs,
                 calls := st.calls ++ [RepoCall.create ev.activityLog.ID] }) := by
  unfold NATSConsumer.processActivityLogEvent ArangoRepo.create
  simp [hfresh]

/-- **C5 amended witness.** The amended statement at the invalid concrete
event above. -/
theorem c5_amended_witness :
    NATSConsumer.processActivityLogEvent (fun _ => .ok invalidEvent) true ⟨[], []⟩ "payload" =
      (.ok (), { docs := [("id1", invalidEventLog)], calls := [RepoCall.create "id1"] }) :=
  c5_amended_handler_skips_validation invalidEvent ⟨[], []⟩ "payload" rfl

/-! ## C4 — cache-hit short circuit on `GetByID` -/

/-- **C4.** A cache hit on the item key returns the cached record and
leaves the whole state — durable-store call trace included — untouched;
and after a miss-then-repopulate `GetByID`, a second `GetByID` for the
same id with the cache reachable returns the same record without any
further durable-store call. -/
theorem c4_cache_hit_short_circuit :
    (∀ (f : GetFlags) (st : SysState) (id : String) (al : ActivityLog) (ttl : Nat),
      f.getOk = true →
      st.cache (BuildActivityLogCacheKey id) = some (.item al, ttl) →
      CachedRepo.GetByID f st id = (.ok al, st)) ∧
    (∀ (f1 f2 : GetFlags) (st : SysState) (id : String) (al : ActivityLog),
      st.cache (BuildActivityLogCacheKey id) = none →
      f1.repoOk = true → f1.setOk = true →
      st.repo.findDoc id = some al →
      f2.getOk = true →
      (CachedRepo.GetByID f1 st id).1 = .ok al ∧
      CachedRepo.GetByID f2 (CachedRepo.GetByID f1 st id).2 id =
        (.ok al, (CachedRepo.GetByID f1 st id).2)) := by
  have hit : ∀ (f : GetFlags) (st : SysState) (id : String) (al : ActivityLog) (ttl : Nat),
      f.getOk = true →
      st.cache (BuildActivityLogCacheKey id) = some (.item al, ttl) →
      CachedRepo.GetByID f st id = (.ok al, st) := by
    intro f st id al ttl hok hc
    simp [CachedRepo.GetByID, RedisCache.Get, hok, hc]
  refine ⟨hit, ?_⟩
  intro f1 f2 st id al hnone hrepo hset hfind hget2
  have hfind' : RepoState.findDoc { st.repo with calls := st.repo.calls ++ [.getByID id] } id
      = some al := by
    simpa [RepoState.findDoc] using hfind
  have hfirst : CachedRepo.GetByID f1 st id =
      (.ok al,
        { repo := { st.repo with calls := st.repo.calls ++ [.getByID id] },
          cache := fun k => if k = BuildActivityLogCacheKey id then some (.item al, 3600)
            else st.cache k }) := by
    cases hg : f1.getOk <;>
      simp [CachedRepo.GetByID, RedisCache.Get, RedisCache.Set, ArangoRepo.getByID,
        hg, hnone, hrepo, hset, hfind']
  refine ⟨by rw [hfirst], ?_⟩
  rw [hfirst]
  exact hit f2 _ id al 3600 hget2 (by simp)

/-- **C4 witness.** The two-call scenario on a one-document store with an
initially empty cache: the first `GetByID` reads the store and caches, the
second hits the cache and leaves the state unchanged. -/
theorem c4_cache_hit_short_circuit_witness :
    (CachedRepo.GetByID ⟨true, true, true⟩
        ⟨{ docs := [("id1", sampleLog)], calls := [] }, fun _ => none⟩ "id1").1 = .ok sampleLog ∧
    CachedRepo.GetByID ⟨true, true, true⟩
        (CachedRepo.GetByID ⟨true, true, true⟩
          ⟨{ docs := [("id1", sampleLog)], calls := [] }, fun _ => none⟩ "id1").2 "id1" =
      (.ok sampleLog,
        (CachedRepo.GetByID ⟨true, true, true⟩
          ⟨{ docs := [("id1", sampleLog)], calls := [] }, fun _ => none⟩ "id1").2) :=
  c4_cache_hit_short_circuit.2 ⟨true, true, true⟩ ⟨true, true, true⟩
    ⟨{ docs := [("id1", sampleLog)], calls := [] }, fun _ => none⟩ "id1" sampleLog
    rfl rfl rfl rfl rfl

/-! ## Glob and cache-key lemmas -/

/-- A `*` at the head of the pattern absorbs any prefix of the subject. -/
lemma glob_star_suffix (ps : List Char) (s t : List Char) (hts : t <:+ s)
    (h : globMatch ps t = true) : globMatch ('*' :: ps) s = true := by
  have : s.tails.any (fun u => globMatch ps u) = true :=
    List.any_eq_true.mpr ⟨t, (List.mem_tails t s).mpr hts, h⟩
  simpa [globMatch] using this

/-- A pattern that is a literal chunk followed by `*` matches that chunk
followed by anything. -/
lemma glob_chunk_star (P s : List Char) : globMatch (P ++ ['*']) (P ++ s) = true := by
  induction P with
  | nil =>
    exact glob_star_suffix [] s [] ⟨s, by simp⟩ rfl
  | cons p P ih =>
    by_cases hp : p = '*'
    · subst hp
      exact glob_star_suffix (P ++ ['*']) ('*' :: (P ++ s)) (P ++ s)
        ⟨['*'], rfl⟩ ih
    · simpa [globMatch, hp] using ih

/-- The tenant-wide invalidation pattern matches every list cache key of
that tenant, whatever the page and limit. -/
lemma glob_company_key_matches (cid : String) (p l : Int) :
    globMatch ("company_activity_logs:" ++ cid ++ ":*").data
      (BuildCompanyActivityLogsCacheKey cid p l).data = true := by
  have hpat : ("company_activity_logs:" ++ cid ++ ":*").data
      = (("company_activity_logs:" : String).data ++ cid.data ++ [':']) ++ ['*'] := by
    have h1 : (":*" : String).data = [':', '*'] := rfl
    simp [String.data_append, h1]
  have hkey : (BuildCompanyActivityLogsCacheKey cid p l).data
      = (("company_activity_logs:" : String).data ++ cid.data ++ [':'])
        ++ (("page:" : String).data ++ (toString p).data ++ (":limit:" : String).data
            ++ (toString l).data) := by
    have h2 : (":page:" : String).data = ':' :: ("page:" : String).data := rfl
    simp [BuildCompanyActivityLogsCacheKey, String.data_append, h2]
  rw [hpat, hkey]
  exact glob_chunk_star _ _

/-- The tenant invalidation pattern never matches an item cache key: the
pattern starts with a literal `c`, item keys with `a`. -/
lemma glob_company_pat_not_item (cid id : String) :
    globMatch ("company_activity_logs:" ++ cid ++ ":*").data
      (BuildActivityLogCacheKey id).data = false := by
  have hc : ("company_activity_logs:" : String).data
      = 'c' :: ("ompany_activity_logs:" : String).data := rfl
  have ha : ("activity_log:" : String).data = 'a' :: ("ctivity_log:" : String).data := rfl
  simp [BuildActivityLogCacheKey, String.data_append, hc, ha, globMatch]

/-- Item cache keys differ from count cache keys (`activity_log:` versus
`activity_log_count:` — they disagree at the thirteenth character). -/
lemma itemKey_ne_countKey (id cid : String) :
    BuildActivityLogCacheKey id ≠ BuildActivityLogCountCacheKey cid := by
  intro h
  have h2 := congrArg String.data h
  have e1 : ("activity_log:" : String).data
      = ['a', 'c', 't', 'i', 'v', 'i', 't', 'y', '_', 'l', 'o', 'g', ':'] := rfl
  have e2 : ("activity_log_count:" : String).data
      = ['a', 'c', 't', 'i', 'v', 'i', 't', 'y', '_', 'l', 'o', 'g', '_', 'c', 'o', 'u', 'n',
          't', ':'] := rfl
  simp [BuildActivityLogCacheKey, BuildActivityLogCountCacheKey, String.data_append,
    e1, e2] at h2

/-- List cache keys differ from item cache keys (`company_…` versus
`activity_…` — they disagree at the first character). -/
lemma companyKey_ne_itemKey (cid : String) (p l : Int) (id : String) :
    BuildCompanyActivityLogsCacheKey cid p l ≠ BuildActivityLogCacheKey id := by
  intro h
  have h2 := congrArg String.data h
  have hc : ("company_activity_logs:" : String).data
      = 'c' :: ("ompany_activity_logs:" : String).data := rfl
  have ha : ("activity_log:" : String).data = 'a' :: ("ctivity_log:" : String).data := rfl
  simp [BuildCompanyActivityLogsCacheKey, BuildActivityLogCacheKey, String.data_append,
    hc, ha] at h2

/-! ## C1 — create / getByID round trip -/

/-- **C1.** For a record with a fresh id (no durable document and no cache
entry under its item key, as holds for ids generated at construction),
`Create` succeeds and an immediately following `GetByID` on that id
returns a record equal to the created one in all fields, whatever the
outcome of each best-effort cache round trip. -/
theorem c1_create_getByID_roundtrip
    (f : CreateFlags) (g : GetFlags) (st : SysState) (al : ActivityLog)
    (hfresh : st.repo.docs.any (fun kv => kv.fst == al.ID) = false)
    (hcache : st.cache (BuildActivityLogCacheKey al.ID) = none)
    (hro : f.repoOk = true) (hro2 : g.repoOk = true) :
    (CachedRepo.Create f st al).1 = .ok () ∧
    (CachedRepo.GetByID g (CachedRepo.Create f st al).2 al.ID).1 = .ok al := by
  rcases f with ⟨fr, fs, fp, fc⟩
  rcases g with ⟨gg, gr, gs⟩
  simp only at hro hro2
  subst hro hro2
  have hne := itemKey_ne_countKey al.ID al.CompanyID
  have hglob := glob_company_pat_not_item al.CompanyID al.ID
  simp only [String.data_append] at hglob
  simp at hglob
  cases gg <;> cases fs <;> cases fp <;> cases fc <;>
    simp [CachedRepo.Create, CachedRepo.GetByID, ArangoRepo.create, ArangoRepo.getByID,
      RedisCache.Get, RedisCache.Set, RedisCache.Delete, RedisCache.DeleteByPattern,
      invalidateCompanyCache, RepoState.findDoc, hfresh, hcache, hne, hglob]

/-- **C1 witness.** The example scenario record created against an empty
store and empty cache, with the cache-set succeeding but both
invalidation round trips failing, then read back with the cache
reachable. -/
theorem c1_create_getByID_roundtrip_witness :
    (CachedRepo.Create ⟨true, true, false, false⟩ ⟨⟨[], []⟩, fun _ => none⟩ sampleLog).1
        = .ok () ∧
    (CachedRepo.GetByID ⟨true, true, true⟩
        (CachedRepo.Create ⟨true, true, false, false⟩ ⟨⟨[], []⟩, fun _ => none⟩ sampleLog).2
        sampleLog.ID).1 = .ok sampleLog :=
  c1_create_getByID_roundtrip ⟨true, true, false, false⟩ ⟨true, true, true⟩
    ⟨⟨[], []⟩, fun _ => none⟩ sampleLog rfl rfl rfl rfl

/-! ## C3 — create invalidates the tenant's list and count entries -/

/-- **C3.** After a successful `Create` for tenant T in which both
invalidation round trips are reachable, every list cache entry of T (for
every page and limit) and T's count entry are gone, and a subsequent
`GetByCompanyID` or `CountByCompanyID` for T misses the cache and issues a
durable-store query instead of returning a stale entry. -/
theorem c3_create_invalidates_tenant_cache
    (f : CreateFlags) (gl : ListFlags) (cf2 : CountFlags) (st : SysState) (al : ActivityLog)
    (hok : (CachedRepo.Create f st al).1 = .ok ())
    (hpat : f.patOk = true) (hcnt : f.countDelOk = true) :
    (∀ p l : Int,
      (CachedRepo.Create f st al).2.cache (BuildCompanyActivityLogsCacheKey al.CompanyID p l)
        = none) ∧
    (CachedRepo.Create f st al).2.cache (BuildActivityLogCountCacheKey al.CompanyID) = none ∧
    (∀ p l : Int,
      (CachedRepo.GetByCompanyID gl (CachedRepo.Create f st al).2 al.CompanyID p l).2.repo.calls
        = (CachedRepo.Create f st al).2.repo.calls
            ++ [RepoCall.getByCompanyID al.CompanyID p l]) ∧
    (CachedRepo.CountByCompanyID cf2 (CachedRepo.Create f st al).2 al.CompanyID).2.repo.calls
      = (CachedRepo.Create f st al).2.repo.calls ++ [RepoCall.countByCompanyID al.CompanyID] := by
  rcases f with ⟨fr, fs, fp, fc⟩
  simp only at hpat hcnt
  subst hpat hcnt
  rcases hr : ArangoRepo.create fr st.repo al with ⟨r, r1⟩
  cases r with
  | error e =>
    exfalso
    simp [CachedRepo.Create, hr] at hok
  | ok u =>
    have hcr : CachedRepo.Create ⟨fr, fs, true, true⟩ st al =
        (.ok (),
          { repo := r1
            cache := (invalidateCompanyCache true true
              ((RedisCache.Set fs st.cache (BuildActivityLogCacheKey al.ID) (.item al) 3600).2)
              al.CompanyID).2 }) := by
      simp [CachedRepo.Create, hr]
    rw [hcr]
    have hgone : ∀ k : String,
        globMatch ("company_activity_logs:" ++ al.CompanyID ++ ":*").data k.data = true ∨
          k = BuildActivityLogCountCacheKey al.CompanyID →
        (invalidateCompanyCache true true
            ((RedisCache.Set fs st.cache (BuildActivityLogCacheKey al.ID) (.item al) 3600).2)
            al.CompanyID).2 k = none := by
      intro k hk
      by_cases hkc : k = BuildActivityLogCountCacheKey al.CompanyID
      · simp [invalidateCompanyCache, RedisCache.DeleteByPattern, RedisCache.Delete, hkc]
      · rcases hk with hk | hk
        · simp only [String.data_append] at hk
          simp at hk
          simp [invalidateCompanyCache, RedisCache.DeleteByPattern, RedisCache.Delete, hkc, hk]
        · exact absurd hk hkc
    have hlist : ∀ p l : Int,
        (invalidateCompanyCache true true
            ((RedisCache.Set fs st.cache (BuildActivityLogCacheKey al.ID) (.item al) 3600).2)
            al.CompanyID).2 (BuildCompanyActivityLogsCacheKey al.CompanyID p l) = none :=
      fun p l => hgone _ (Or.inl (glob_company_key_matches al.CompanyID p l))
    have hcount :
        (invalidateCompanyCache true true
            ((RedisCache.Set fs st.cache (BuildActivityLogCacheKey al.ID) (.item al) 3600).2)
            al.CompanyID).2 (BuildActivityLogCountCacheKey al.CompanyID) = none :=
      hgone _ (Or.inr rfl)
    refine ⟨hlist, hcount, ?_, ?_⟩
    · intro p l
      have hcalls := arango_getByCompanyID_calls gl.repoOk r1 al.CompanyID p l
      rcases hq : ArangoRepo.getByCompanyID gl.repoOk r1 al.CompanyID p l with ⟨rq, r2⟩
      rw [hq] at hcalls
      cases gg : gl.getOk <;>
        [skip;
         skip] <;>
        · rcases rq with eq | ⟨logs, total⟩ <;>
            simp [CachedRepo.GetByCompanyID, RedisCache.Get, gg, hlist p l, hq] <;>
            exact hcalls
    · have hcalls := arango_countByCompanyID_calls cf2.repoOk r1 al.CompanyID
      rcases hq : ArangoRepo.countByCompanyID cf2.repoOk r1 al.CompanyID with ⟨rq, r2⟩
      rw [hq] at hcalls
      cases gg : cf2.getOk <;>
        · rcases rq with eq | n <;>
            simp [CachedRepo.CountByCompanyID, RedisCache.Get, gg, hcount, hq] <;>
            exact hcalls

/-- **C3 witness.** The example scenario: a cache pre-warmed with a stale
page and count for tenant `acme`; after creating the example record both
entries are gone and fresh list/count reads go to the durable store. -/
theorem c3_create_invalidates_tenant_cache_witness :
    ((CachedRepo.Create ⟨true, true, true, true⟩
        ⟨⟨[], []⟩, fun k =>
          if k = BuildCompanyActivityLogsCacheKey "acme" 1 10 then some (.page [] 0, 1800)
          else if k = BuildActivityLogCountCacheKey "acme" then some (.count 0, 300)
          else none⟩ sampleLog).2.cache
      (BuildCompanyActivityLogsCacheKey "acme" 1 10) = none) ∧
    ((CachedRepo.Create ⟨true, true, true, true⟩
        ⟨⟨[], []⟩, fun k =>
          if k = BuildCompanyActivityLogsCacheKey "acme" 1 10 then some (.page [] 0, 1800)
          else if k = BuildActivityLogCountCacheKey "acme" then some (.count 0, 300)
          else none⟩ sampleLog).2.cache (BuildActivityLogCountCacheKey "acme") = none) ∧
    ((CachedRepo.GetByCompanyID ⟨true, true, true, fun _ => true⟩
        (CachedRepo.Create ⟨true, true, true, true⟩
          ⟨⟨[], []⟩, fun k =>
            if k = BuildCompanyActivityLogsCacheKey "acme" 1 10 then some (.page [] 0, 1800)
            else if k = BuildActivityLogCountCacheKey "acme" then some (.count 0, 300)
            else none⟩ sampleLog).2 "acme" 1 10).2.repo.calls
      = [RepoCall.create "id1", RepoCall.getByCompanyID "acme" 1 10]) := by
  have h := c3_create_invalidates_tenant_cache ⟨true, true, true, true⟩
    ⟨true, true, true, fun _ => true⟩ ⟨true, true, true⟩
    ⟨⟨[], []⟩, fun k =>
      if k = BuildCompanyActivityLogsCacheKey "acme" 1 10 then some (.page [] 0, 1800)
      else if k = BuildActivityLogCountCacheKey "acme" then some (.count 0, 300)
      else none⟩ sampleLog rfl rfl rfl
  refine ⟨h.1 1 10, h.2.1, ?_⟩
  exact (h.2.2.1 1 10).trans (by rfl)

/-! ## C10 — Delete after a failed pre-delete lookup -/

/-- The durable read returns the state with only its call trace extended,
whatever the outcome. -/
lemma arango_getByID_snd (ok : Bool) (st : RepoState) (id : String) :
    (ArangoRepo.getByID ok st id).2 = { st with calls := st.calls ++ [RepoCall.getByID id] } := by
  cases ok
  · rfl
  · unfold ArangoRepo.getByID
    rcases hf : RepoState.findDoc { st with calls := st.calls ++ [RepoCall.getByID id] } id
      with _ | al <;> simp [hf]

/-- A failed cached `GetByID` mutates nothing but the durable call trace:
the cache is exactly as before and exactly one durable read was issued. -/
lemma cached_getByID_error_state (f : GetFlags) (st : SysState) (id : String) (e : Err)
    (h : (CachedRepo.GetByID f st id).1 = .error e) :
    (CachedRepo.GetByID f st id).2.cache = st.cache ∧
    (CachedRepo.GetByID f st id).2.repo.docs = st.repo.docs ∧
    (CachedRepo.GetByID f st id).2.repo.calls = st.repo.calls ++ [RepoCall.getByID id] := by
  have hsnd := arango_getByID_snd f.repoOk st.repo id
  rcases hq : ArangoRepo.getByID f.repoOk st.repo id with ⟨r, r1⟩
  rw [hq] at hsnd
  simp at hsnd
  subst hsnd
  rcases hg : RedisCache.Get f.getOk st.cache (BuildActivityLogCacheKey id) with e0 | v
  · cases r <;> simp [CachedRepo.GetByID, hg, hq] <;>
      simp [CachedRepo.GetByID, hg, hq] at h
  · cases v <;> cases r <;>
      simp [CachedRepo.GetByID, hg, hq] <;>
      simp [CachedRepo.GetByID, hg, hq] at h

/-- **C10.** When the pre-delete `GetByID` lookup fails, `Delete` still
performs the durable delete and removes the item cache key, but performs
no tenant invalidation: every key other than the item key — in particular
every tenant list key and every count key — keeps its previous value, so
stale tenant entries survive the successful delete. -/
theorem c10_delete_after_failed_lookup_preserves_tenant_cache
    (f : DeleteFlags) (st : SysState) (id : String) (e : Err)
    (hlk : (CachedRepo.GetByID f.get st id).1 = .error e)
    (hro : f.repoOk = true)
    (hpresent : st.repo.docs.any (fun kv => kv.fst == id) = true)
    (hdel : f.delOk = true) :
    (CachedRepo.Delete f st id).1 = .ok () ∧
    (CachedRepo.Delete f st id).2.repo.docs
      = st.repo.docs.filter (fun kv => ¬ kv.fst == id) ∧
    (CachedRepo.Delete f st id).2.repo.calls
      = st.repo.calls ++ [RepoCall.getByID id, RepoCall.delete id] ∧
    (CachedRepo.Delete f st id).2.cache (BuildActivityLogCacheKey id) = none ∧
    (∀ k, k ≠ BuildActivityLogCacheKey id →
      (CachedRepo.Delete f st id).2.cache k = st.cache k) ∧
    (∀ (cid : String) (p l : Int),
      (CachedRepo.Delete f st id).2.cache (BuildCompanyActivityLogsCacheKey cid p l)
        = st.cache (BuildCompanyActivityLogsCacheKey cid p l)) ∧
    (∀ cid : String,
      (CachedRepo.Delete f st id).2.cache (BuildActivityLogCountCacheKey cid)
        = st.cache (BuildActivityLogCountCacheKey cid)) := by
  obtain ⟨hc, hd, hcl⟩ := cached_getByID_error_state f.get st id e hlk
  rcases hq : CachedRepo.GetByID f.get st id with ⟨lr, st1⟩
  rw [hq] at hc hd hcl hlk
  simp only [Prod.snd] at hc hd hcl
  simp only [Prod.fst] at hlk
  have hlr : lr = .error e := hlk
  have hany : st1.repo.docs.any (fun kv => kv.fst == id) = true := by
    rw [hd]; exact hpresent
  have hdel2 : ArangoRepo.delete true st1.repo id =
      (.ok (),
        { docs := st1.repo.docs.filter (fun kv => ¬ kv.fst == id)
          calls := st1.repo.calls ++ [RepoCall.delete id] }) := by
    simp [ArangoRepo.delete, hany]
  have hfinal : CachedRepo.Delete f st id =
      (.ok (),
        { repo :=
            { docs := st1.repo.docs.filter (fun kv => ¬ kv.fst == id)
              calls := st1.repo.calls ++ [RepoCall.delete id] }
          cache := fun k => if k = BuildActivityLogCacheKey id then none else st1.cache k }) := by
    simp [CachedRepo.Delete, hq, hlr, hro, hdel, hdel2, RedisCache.Delete]
  rw [hfinal]
  refine ⟨rfl, by rw [hd], by rw [hcl]; simp, by simp, ?_, ?_, ?_⟩
  · intro k hk
    simp [hk, hc]
  · intro cid p l
    simp [companyKey_ne_itemKey cid p l id, hc]
  · intro cid
    have hne : BuildActivityLogCountCacheKey cid ≠ BuildActivityLogCacheKey id :=
      fun h => itemKey_ne_countKey id cid h.symm
    simp [hne, hc]

/-- **C10 witness.** A one-document store whose cache holds a stale tenant
page and count but no item entry, with the cache reachable and the
durable store down during the lookup: the delete succeeds, the item key
is (vacuously) absent, and both stale tenant entries survive. -/
theorem c10_delete_after_failed_lookup_witness :
    (CachedRepo.Delete ⟨⟨true, false, true⟩, true, true, true, true⟩
        ⟨{ docs := [("id1", sampleLog)], calls := [] },
          fun k =>
            if k = BuildCompanyActivityLogsCacheKey "acme" 1 10 then some (.page [sampleLog] 1, 1800)
            else if k = BuildActivityLogCountCacheKey "acme" then some (.count 1, 300)
            else none⟩ "id1").1 = .ok () ∧
    (CachedRepo.Delete ⟨⟨true, false, true⟩, true, true, true, true⟩
        ⟨{ docs := [("id1", sampleLog)], calls := [] },
          fun k =>
            if k = BuildCompanyActivityLogsCacheKey "acme" 1 10 then some (.page [sampleLog] 1, 1800)
            else if k = BuildActivityLogCountCacheKey "acme" then some (.count 1, 300)
            else none⟩ "id1").2.cache (BuildCompanyActivityLogsCacheKey "acme" 1 10)
      = some (.page [sampleLog] 1, 1800) ∧
    (CachedRepo.Delete ⟨⟨true, false, true⟩, true, true, true, true⟩
        ⟨{ docs := [("id1", sampleLog)], calls := [] },
          fun k =>
            if k = BuildCompanyActivityLogsCacheKey "acme" 1 10 then some (.page [sampleLog] 1, 1800)
            else if k = BuildActivityLogCountCacheKey "acme" then some (.count 1, 300)
            else none⟩ "id1").2.cache (BuildActivityLogCountCacheKey "acme")
      = some (.count 1, 300) := by
  have h := c10_delete_after_failed_lookup_preserves_tenant_cache
    ⟨⟨true, false, true⟩, true, true, true, true⟩
    ⟨{ docs := [("id1", sampleLog)], calls := [] },
      fun k =>
        if k = BuildCompanyActivityLogsCacheKey "acme" 1 10 then some (.page [sampleLog] 1, 1800)
        else if k = BuildActivityLogCountCacheKey "acme" then some (.count 1, 300)
        else none⟩ "id1" .transport rfl rfl rfl rfl
  exact ⟨h.1, (h.2.2.2.2.2.1 "acme" 1 10).trans (by rfl), (h.2.2.2.2.2.2 "acme").trans (by rfl)⟩

/-! ## Worker-pool list lemmas -/

lemma mem_ite_singleton {α : Type} {c : Bool} {a x : α}
    (h : x ∈ (if c then [a] else [])) : x = a := by
  cases c
  · simp at h
  · simpa using h

lemma mem_of_getElem_some {α : Type} {l : List α} {n : Nat} {x : α}
    (h : l[n]? = some x) : x ∈ l := by
  induction l generalizing n with
  | nil => simp at h
  | cons a t ih =>
    cases n with
    | zero => simp at h; simp [h]
    | succ n => exact List.mem_cons_of_mem a (ih (by simpa using h))

lemma mem_set_cases {α : Type} {l : List α} {n : Nat} {b x : α}
    (h : x ∈ l.set n b) : x ∈ l ∨ x = b := by
  induction l generalizing n with
  | nil => simp at h
  | cons a t ih =>
    cases n with
    | zero =>
      rcases List.mem_cons.mp h with h | h
      · exact Or.inr h
      · exact Or.inl (List.mem_cons_of_mem a h)
    | succ n =>
      rcases List.mem_cons.mp h with h | h
      · exact Or.inl (by simp [h])
      · rcases ih h with h | h
        · exact Or.inl (List.mem_cons_of_mem a h)
        · exact Or.inr h

lemma procJobs_subset_set {ws : List WStatus} {w : Nat} {s : WStatus} {x : Job}
    (hx : x ∈ (ws.set w s).filterMap WStatus.procJob?) :
    x ∈ ws.filterMap WStatus.procJob? ∨ s.procJob? = some x := by
  rcases List.mem_filterMap.mp hx with ⟨st0, hmem, hp⟩
  rcases mem_set_cases hmem with h | h
  · exact Or.inl (List.mem_filterMap.mpr ⟨st0, h, hp⟩)
  · subst h
    exact Or.inr hp

/-- Replacing an idle worker by one processing `j` adds exactly `j` to the
multiset of in-flight jobs. -/
lemma procJobs_set_processing (ws : List WStatus) (w : Nat) (j : Job)
    (h : ws[w]? = some .idle) :
    ((ws.set w (.processing j)).filterMap WStatus.procJob?).Perm
      (j :: ws.filterMap WStatus.procJob?) := by
  induction ws generalizing w with
  | nil => simp at h
  | cons a t ih =>
    cases w with
    | zero =>
      simp at h
      subst h
      simp [WStatus.procJob?]
    | succ n =>
      have h' : t[n]? = some WStatus.idle := by simpa using h
      cases ha : a.procJob? with
      | none => simpa [List.filterMap_cons, ha] using ih n h'
      | some ja =>
        have hp := ih n h'
        simp only [List.set, List.filterMap_cons, ha]
        exact (hp.cons ja).trans (List.Perm.swap j ja _)

/-- Setting a worker that was processing `j` back to idle removes exactly
`j` from the multiset of in-flight jobs. -/
lemma procJobs_set_idle (ws : List WStatus) (w : Nat) (j : Job)
    (h : ws[w]? = some (.processing j)) :
    (ws.filterMap WStatus.procJob?).Perm
      (j :: (ws.set w .idle).filterMap WStatus.procJob?) := by
  induction ws generalizing w with
  | nil => simp at h
  | cons a t ih =>
    cases w with
    | zero =>
      simp at h
      subst h
      simp [WStatus.procJob?]
    | succ n =>
      have h' : t[n]? = some (WStatus.processing j) := by simpa using h
      cases ha : a.procJob? with
      | none => simpa [List.filterMap_cons, ha] using ih n h'
      | some ja =>
        have hp := ih n h'
        simp only [List.set, List.filterMap_cons, ha]
        exact (hp.cons ja).trans (List.Perm.swap j ja _)

/-! ## C6 — submission after stop -/

def c6Job : Job :=
  { ID := "job-1", Data := "d", Handler := fun _ => .ok (),
    hasOnSuccess := true, hasOnError := true }

def c6StoppedPool : PoolState :=
  { jobQueue := [], quitClosed := true, workers := [.idle], events := [] }

/-- **C6 counterexample.** The claim says a job submitted after the quit
signal is set is never enqueued.  But `Submit` is a `select` over the
queue send and the quit receive, and when both are ready the runtime
picks either branch: on a stopped pool with queue space, the send branch
commits and the job *is* enqueued. -/
theorem c6_counterexample_submit_after_stop_can_enqueue :
    c6StoppedPool.quitClosed = true ∧
    (applyAction c6StoppedPool (.submit c6Job false)).jobQueue.map Job.ID = ["job-1"] := by
  constructor
  · rfl
  · rfl

/-- Once the quit channel is closed it stays closed: no pool action resets
it. -/
lemma quitClosed_applyAction (st : PoolState) (a : PAction)
    (h : st.quitClosed = true) : (applyAction st a).quitClosed = true := by
  cases a <;> simp only [applyAction] <;> repeat' split <;> simp_all

/-- **C6 amended.** A job submitted after stop has begun is rejected only
when the `select` commits to the quit branch — which is forced when the
queue is full and otherwise one of the two scheduler choices.  In the
rejection case the original claim's content holds: `Submit` returns with
no error and no state change, the job is never enqueued or executed, and
no callback of it ever fires in any later execution that does not
resubmit the same job id. -/
theorem c6_amended_submit_after_stop_quit_branch
    (st : PoolState) (j : Job) (acts : List PAction)
    (hq : st.quitClosed = true)
    (habs : jobAbsent st j.ID = true)
    (hacts : ∀ a ∈ acts, ∀ (j' : Job) (b : Bool), a = PAction.submit j' b → j'.ID ≠ j.ID) :
    applyAction st (.submit j true) = st ∧
    jobAbsent (runPool (applyAction st (.submit j true)) acts) j.ID = true := by
  have hsub : applyAction st (.submit j true) = st := by
    simp [applyAction, hq]
  refine ⟨hsub, ?_⟩
  rw [hsub]
  clear hsub
  induction acts generalizing st with
  | nil => simpa [runPool] using habs
  | cons a t ih =>
    have hstep : jobAbsent (applyAction st a) j.ID = true := by
      have ha := hacts a (List.mem_cons_self a t)
      simp only [jobAbsent, Bool.and_eq_true, List.all_eq_true] at habs
      obtain ⟨⟨hqueue, hworkers⟩, hevents⟩ := habs
      cases a with
      | submit j' b =>
        have hne : j'.ID ≠ j.ID := ha j' b rfl
        simp only [applyAction]
        split
        · simp only [jobAbsent, Bool.and_eq_true, List.all_eq_true]
          exact ⟨⟨hqueue, hworkers⟩, hevents⟩
        · split
          · simp only [jobAbsent, Bool.and_eq_true, List.all_eq_true]
            refine ⟨⟨?_, hworkers⟩, hevents⟩
            intro x hx
            rcases List.mem_append.mp hx with hx | hx
            · exact hqueue x hx
            · simp at hx
              subst hx
              simpa using hne
          · simp only [jobAbsent, Bool.and_eq_true, List.all_eq_true]
            exact ⟨⟨hqueue, hworkers⟩, hevents⟩
      | stop =>
        simp only [applyAction, jobAbsent, Bool.and_eq_true, List.all_eq_true]
        exact ⟨⟨hqueue, hworkers⟩, hevents⟩
      | take w =>
        simp only [applyAction]
        rcases hw : st.workers[w]? with _ | s
        · simp only [jobAbsent, Bool.and_eq_true, List.all_eq_true]
          exact ⟨⟨hqueue, hworkers⟩, hevents⟩
        · cases s with
          | idle =>
            rcases hqd : st.jobQueue with _ | ⟨jh, rest⟩
            · simp only [jobAbsent, Bool.and_eq_true, List.all_eq_true]
              exact ⟨⟨hqueue, hworkers⟩, hevents⟩
            · simp only [jobAbsent, Bool.and_eq_true, List.all_eq_true]
              have hjh : jh.ID ≠ j.ID := by
                have := hqueue jh (by rw [hqd]; exact List.mem_cons_self jh rest)
                simpa using this
              refine ⟨⟨?_, ?_⟩, hevents⟩
              · intro x hx
                exact hqueue x (by rw [hqd]; exact List.mem_cons_of_mem jh hx)
              · intro x hx
                rcases mem_set_cases hx with hx | hx
                · exact hworkers x hx
                · subst hx
                  simpa [WStatus.procJob?] using hjh
          | processing jp =>
            simp only [jobAbsent, Bool.and_eq_true, List.all_eq_true]
            exact ⟨⟨hqueue, hworkers⟩, hevents⟩
          | exited =>
            simp only [jobAbsent, Bool.and_eq_true, List.all_eq_true]
            exact ⟨⟨hqueue, hworkers⟩, hevents⟩
      | finish w =>
        simp only [applyAction]
        rcases hw : st.workers[w]? with _ | s
        · simp only [jobAbsent, Bool.and_eq_true, List.all_eq_true]
          exact ⟨⟨hqueue, hworkers⟩, hevents⟩
        · cases s with
          | idle =>
            simp only [jobAbsent, Bool.and_eq_true, List.all_eq_true]
            exact ⟨⟨hqueue, hworkers⟩, hevents⟩
          | processing jp =>
            have hjp : jp.ID ≠ j.ID := by
              have := hworkers (WStatus.processing jp) (mem_of_getElem_some hw)
              simpa [WStatus.procJob?] using this
            simp only [jobAbsent, Bool.and_eq_true, List.all_eq_true]
            refine ⟨⟨hqueue, ?_⟩, ?_⟩
            · intro x hx
              rcases mem_set_cases hx with hx | hx
              · exact hworkers x hx
              · subst hx
                simp [WStatus.procJob?]
            · intro x hx
              rcases List.mem_append.mp hx with hx | hx
              · exact hevents x hx
              · rcases hh : jp.Handler jp.Data with e0 | u
                · rw [hh] at hx
                  have hxe := mem_ite_singleton (c := jp.hasOnError)
                    (a := PEvent.failure jp.ID e0) hx
                  subst hxe
                  simpa [PEvent.jobId] using hjp
                · rw [hh] at hx
                  have hxe := mem_ite_singleton (c := jp.hasOnSuccess)
                    (a := PEvent.success jp.ID) hx
                  subst hxe
                  simpa [PEvent.jobId] using hjp
          | exited =>
            simp only [jobAbsent, Bool.and_eq_true, List.all_eq_true]
            exact ⟨⟨hqueue, hworkers⟩, hevents⟩
      | quit w =>
        have hred : applyAction st (.quit w) =
            (match st.workers[w]? with
              | some WStatus.idle => { st with workers := st.workers.set w .exited }
              | _ => st) := by
          simp [applyAction, hq]
        rw [hred]
        rcases hw : st.workers[w]? with _ | s
        · simp only [jobAbsent, Bool.and_eq_true, List.all_eq_true]
          exact ⟨⟨hqueue, hworkers⟩, hevents⟩
        · cases s with
          | idle =>
            simp only [jobAbsent, Bool.and_eq_true, List.all_eq_true]
            refine ⟨⟨hqueue, ?_⟩, hevents⟩
            intro x hx
            rcases mem_set_cases hx with hx | hx
            · exact hworkers x hx
            · subst hx
              simp [WStatus.procJob?]
          | processing jp =>
            simp only [jobAbsent, Bool.and_eq_true, List.all_eq_true]
            exact ⟨⟨hqueue, hworkers⟩, hevents⟩
          | exited =>
            simp only [jobAbsent, Bool.and_eq_true, List.all_eq_true]
            exact ⟨⟨hqueue, hworkers⟩, hevents⟩
    have hrun : runPool st (a :: t) = runPool (applyAction st a) t := rfl
    rw [hrun]
    exact ih (applyAction st a) (quitClosed_applyAction st a hq) hstep
      (fun a' ha' => hacts a' (List.mem_cons_of_mem a ha'))

/-- **C6 amended witness.** A stopped one-worker pool: the quit-branch
submit is a no-op, and after the worker exits the job has left no trace. -/
theorem c6_amended_submit_after_stop_witness :
    applyAction c6StoppedPool (.submit c6Job true) = c6StoppedPool ∧
    jobAbsent (runPool (applyAction c6StoppedPool (.submit c6Job true)) [.quit 0]) "job-1"
      = true := by
  have h := c6_amended_submit_after_stop_quit_branch c6StoppedPool c6Job [.quit 0] rfl rfl
    (by
      intro a ha j' b hab
      simp at ha
      subst ha
      simp at hab)
  exact h

/-! ## C7 — worker-pool delivery -/

/-- The multiset of job ids the pool is accountable for: ids still queued
or in a worker's hands, plus ids whose completion callback has fired. -/
def poolMeasure (st : PoolState) : Multiset String :=
  (pendingIds st : Multiset String) + (eventIds st : Multiset String)

/-- The pool as `Start` leaves it: `W` idle workers, empty queue, open
quit channel. -/
def initPool (W : Nat) : PoolState :=
  { jobQueue := [], quitClosed := false, workers := List.replicate W .idle, events := [] }

lemma procJobs_replicate_idle (W : Nat) :
    (List.replicate W WStatus.idle).filterMap WStatus.procJob? = [] := by
  induction W with
  | zero => rfl
  | succ n ih => simp [List.replicate_succ, List.filterMap_cons, WStatus.procJob?, ih]

/-- Run invariant of the pool: over any stop-free trace, every pending job
and every fired callback is accounted to exactly one submitted (or
initially pending) job, and each accountable id is carried by exactly one
of (queue, worker, events). -/
lemma pool_invariant (acts : List PAction) :
    ∀ (done : List Job) (st : PoolState),
    st.quitClosed = false →
    (∀ a ∈ acts, a ≠ PAction.stop) →
    (∀ j ∈ pendingJobs st, j ∈ done) →
    (∀ j ∈ done, j.hasOnSuccess = true ∧ j.hasOnError = true) →
    (∀ j ∈ submittedJobs acts, j.hasOnSuccess = true ∧ j.hasOnError = true) →
    (∀ e ∈ st.events, ∃ j ∈ done, callbackMatches j e) →
    poolMeasure st = ((done.map Job.ID : List String) : Multiset String) →
    done.length + (submittedJobs acts).length ≤ workerPoolQueueCapacity →
    (∀ j ∈ pendingJobs (runPool st acts), j ∈ done ++ submittedJobs acts) ∧
    (∀ e ∈ (runPool st acts).events, ∃ j ∈ done ++ submittedJobs acts, callbackMatches j e) ∧
    poolMeasure (runPool st acts)
      = (((done ++ submittedJobs acts).map Job.ID : List String) : Multiset String) := by
  induction acts with
  | nil =>
    intro done st _ _ hpend _ _ hev hmeas _
    simpa [runPool, submittedJobs] using ⟨hpend, hev, hmeas⟩
  | cons a t ih =>
    intro done st hq hnostop hpend hcb hcbacts hev hmeas hlen
    have hrun : runPool st (a :: t) = runPool (applyAction st a) t := rfl
    rw [hrun]
    cases a with
    | stop => exact absurd rfl (hnostop .stop (List.mem_cons_self _ _))
    | submit j b =>
      have hsub : submittedJobs (PAction.submit j b :: t) = j :: submittedJobs t := rfl
      have hcard : (pendingIds st).length + (eventIds st).length = done.length := by
        have := congrArg Multiset.card hmeas
        simpa [poolMeasure, Multiset.card_add, Multiset.coe_card] using this
      have hqlen : st.jobQueue.length ≤ (pendingIds st).length := by
        simp [pendingIds, pendingJobs]
      have hless : st.jobQueue.length < workerPoolQueueCapacity := by
        have h1 : done.length + (submittedJobs (PAction.submit j b :: t)).length
            ≤ workerPoolQueueCapacity := hlen
        rw [hsub] at h1
        simp only [List.length_cons] at h1
        omega
      have hstep : applyAction st (.submit j b) = { st with jobQueue := st.jobQueue ++ [j] } := by
        simp [applyAction, hq, hless]
      rw [hstep]
      have hres := ih (done ++ [j]) { st with jobQueue := st.jobQueue ++ [j] }
        hq
        (fun a' ha' => hnostop a' (List.mem_cons_of_mem _ ha'))
        (by
          intro x hx
          simp only [pendingJobs, List.append_assoc] at hx
          rcases List.mem_append.mp hx with hx | hx
          · exact List.mem_append_left _ (hpend x (List.mem_append_left _ hx))
          · rcases List.mem_append.mp hx with hx | hx
            · simp at hx
              subst hx
              simp
            · exact List.mem_append_left _
                (hpend x (List.mem_append_right _ hx)))
        (by
          intro x hx
          rcases List.mem_append.mp hx with hx | hx
          · exact hcb x hx
          · simp at hx
            subst hx
            exact hcbacts x (by rw [hsub]; exact List.mem_cons_self _ _))
        (fun x hx => hcbacts x (by rw [hsub]; exact List.mem_cons_of_mem _ hx))
        (by
          intro e he
          rcases hev e he with ⟨jw, hjw, hm⟩
          exact ⟨jw, List.mem_append_left _ hjw, hm⟩)
        (by
          simp only [poolMeasure, pendingIds, eventIds, pendingJobs, List.map_append,
            List.map_cons, List.map_nil, ← Multiset.coe_add] at hmeas ⊢
          rw [show (([j.ID] : List String) : Multiset String) = {j.ID} from rfl] at *
          rw [← hmeas]
          abel)
        (by
          rw [hsub] at hlen
          simp at hlen ⊢
          omega)
      rw [hsub]
      have hflat : (done ++ [j]) ++ submittedJobs t = done ++ (j :: submittedJobs t) := by
        simp
      rw [← hflat]
      exact hres
    | take w =>
      have hsub : submittedJobs (PAction.take w :: t) = submittedJobs t := rfl
      rw [hsub]
      have hnostop' : ∀ a' ∈ t, a' ≠ PAction.stop :=
        fun a' ha' => hnostop a' (List.mem_cons_of_mem _ ha')
      have hcbacts' : ∀ x ∈ submittedJobs t, x.hasOnSuccess = true ∧ x.hasOnError = true :=
        fun x hx => hcbacts x hx
      rcases hw : st.workers[w]? with _ | s
      · have : applyAction st (.take w) = st := by simp [applyAction, hw]
        rw [this]
        exact ih done st hq hnostop' hpend hcb hcbacts' hev hmeas hlen
      · cases s with
        | idle =>
          rcases hqd : st.jobQueue with _ | ⟨jh, rest⟩
          · have : applyAction st (.take w) = st := by simp [applyAction, hw, hqd]
            rw [this]
            exact ih done st hq hnostop' hpend hcb hcbacts' hev hmeas hlen
          · have hstep : applyAction st (.take w) =
                { st with jobQueue := rest, workers := st.workers.set w (.processing jh) } := by
              simp [applyAction, hw, hqd]
            rw [hstep]
            have hjh : jh ∈ pendingJobs st := by
              simp [pendingJobs, hqd]
            have hperm := procJobs_set_processing st.workers w jh hw
            refine ih done _ hq hnostop' ?_ hcb hcbacts' hev ?_ hlen
            · intro x hx
              simp only [pendingJobs] at hx
              rcases List.mem_append.mp hx with hx | hx
              · exact hpend x (by simp [pendingJobs, hqd, hx])
              · rcases procJobs_subset_set hx with hx | hx
                · exact hpend x (List.mem_append_right _ hx)
                · simp [WStatus.procJob?] at hx
                  subst hx
                  exact hpend jh hjh
            · have hpc : (((st.workers.set w (.processing jh)).filterMap
                    WStatus.procJob?).map Job.ID : Multiset String)
                  = {jh.ID} + ((st.workers.filterMap WStatus.procJob?).map Job.ID
                      : Multiset String) := by
                have := Multiset.coe_eq_coe.mpr (hperm.map Job.ID)
                simpa [Multiset.singleton_add] using this
              simp only [poolMeasure, pendingIds, eventIds, pendingJobs, List.map_append,
                ← Multiset.coe_add] at hmeas ⊢
              rw [hpc]
              rw [hqd] at hmeas
              simp only [List.map_cons, ← Multiset.cons_coe, ← Multiset.singleton_add] at hmeas
              rw [← hmeas]
              abel
        | processing jp =>
          have : applyAction st (.take w) = st := by simp [applyAction, hw]
          rw [this]
          exact ih done st hq hnostop' hpend hcb hcbacts' hev hmeas hlen
        | exited =>
          have : applyAction st (.take w) = st := by simp [applyAction, hw]
          rw [this]
          exact ih done st hq hnostop' hpend hcb hcbacts' hev hmeas hlen
    | finish w =>
      have hsub : submittedJobs (PAction.finish w :: t) = submittedJobs t := rfl
      rw [hsub]
      have hnostop' : ∀ a' ∈ t, a' ≠ PAction.stop :=
        fun a' ha' => hnostop a' (List.mem_cons_of_mem _ ha')
      have hcbacts' : ∀ x ∈ submittedJobs t, x.hasOnSuccess = true ∧ x.hasOnError = true :=
        fun x hx => hcbacts x hx
      rcases hw : st.workers[w]? with _ | s
      · have : applyAction st (.finish w) = st := by simp [applyAction, hw]
        rw [this]
        exact ih done st hq hnostop' hpend hcb hcbacts' hev hmeas hlen
      · cases s with
        | idle =>
          have : applyAction st (.finish w) = st := by simp [applyAction, hw]
          rw [this]
          exact ih done st hq hnostop' hpend hcb hcbacts' hev hmeas hlen
        | exited =>
          have : applyAction st (.finish w) = st := by simp [applyAction, hw]
          rw [this]
          exact ih done st hq hnostop' hpend hcb hcbacts' hev hmeas hlen
        | processing jp =>
          have hjpmem : jp ∈ pendingJobs st :=
            List.mem_append_right _
              (List.mem_filterMap.mpr ⟨.processing jp, mem_of_getElem_some hw, rfl⟩)
          have hjpdone : jp ∈ done := hpend jp hjpmem
          obtain ⟨hjps, hjpe⟩ := hcb jp hjpdone
          have hperm := procJobs_set_idle st.workers w jp hw
          have hpc : ((st.workers.filterMap WStatus.procJob?).map Job.ID : Multiset String)
              = {jp.ID} + (((st.workers.set w .idle).filterMap WStatus.procJob?).map Job.ID
                  : Multiset String) := by
            have := Multiset.coe_eq_coe.mpr (hperm.map Job.ID)
            simpa [Multiset.singleton_add] using this
          rcases hh : jp.Handler jp.Data with e0 | u
          · -- handler failed: exactly the failure callback fires
            have hevlist : applyAction st (.finish w) =
                { st with
                    workers := st.workers.set w .idle
                    events := st.events ++ [PEvent.failure jp.ID e0] } := by
              simp [applyAction, hw, hh, hjpe]
            rw [hevlist]
            refine ih done _ hq hnostop' ?_ hcb hcbacts' ?_ ?_ hlen
            · intro x hx
              simp only [pendingJobs] at hx
              rcases List.mem_append.mp hx with hx | hx
              · exact hpend x (List.mem_append_left _ hx)
              · rcases procJobs_subset_set hx with hx | hx
                · exact hpend x (List.mem_append_right _ hx)
                · simp [WStatus.procJob?] at hx
            · intro e he
              rcases List.mem_append.mp he with he | he
              · exact hev e he
              · simp at he
                subst he
                exact ⟨jp, hjpdone, rfl, hh, hjpe⟩
            · simp only [poolMeasure, pendingIds, eventIds, pendingJobs, List.map_append,
                ← Multiset.coe_add] at hmeas ⊢
              rw [hpc] at hmeas
              simp only [List.map_cons, List.map_nil, ← Multiset.cons_coe,
                ← Multiset.singleton_add, PEvent.jobId] at hmeas ⊢
              rw [← hmeas]
              abel
          · -- handler succeeded: exactly the success callback fires
            have hevlist : applyAction st (.finish w) =
                { st with
                    workers := st.workers.set w .idle
                    events := st.events ++ [PEvent.success jp.ID] } := by
              simp [applyAction, hw, hh, hjps]
            rw [hevlist]
            refine ih done _ hq hnostop' ?_ hcb hcbacts' ?_ ?_ hlen
            · intro x hx
              simp only [pendingJobs] at hx
              rcases List.mem_append.mp hx with hx | hx
              · exact hpend x (List.mem_append_left _ hx)
              · rcases procJobs_subset_set hx with hx | hx
                · exact hpend x (List.mem_append_right _ hx)
                · simp [WStatus.procJob?] at hx
            · intro e he
              rcases List.mem_append.mp he with he | he
              · exact hev e he
              · simp at he
                subst he
                refine ⟨jp, hjpdone, rfl, ?_, hjps⟩
                rw [hh]
            · simp only [poolMeasure, pendingIds, eventIds, pendingJobs, List.map_append,
                ← Multiset.coe_add] at hmeas ⊢
              rw [hpc] at hmeas
              simp only [List.map_cons, List.map_nil, ← Multiset.cons_coe,
                ← Multiset.singleton_add, PEvent.jobId] at hmeas ⊢
              rw [← hmeas]
              abel
    | quit w =>
      have hsub : submittedJobs (PAction.quit w :: t) = submittedJobs t := rfl
      rw [hsub]
      have : applyAction st (.quit w) = st := by simp [applyAction, hq]
      rw [this]
      exact ih done st hq
        (fun a' ha' => hnostop a' (List.mem_cons_of_mem _ ha'))
        hpend hcb (fun x hx => hcbacts x hx) hev hmeas hlen

/-- **C7.** Over any stop-free trace on a freshly started pool whose
submitted jobs have distinct ids, both completion callbacks set, and
count at most the queue capacity: every callback that fires is the one
matching its job's handler outcome (a success callback for a handler that
returned success, a failure callback carrying the handler's error
otherwise), no job's callback fires more than once, and in any drained run
(empty queue, no worker mid-job) the callbacks are exactly one per
submitted job; with always-succeeding handlers this yields exactly N
success callbacks and zero failure callbacks. -/
theorem c7_worker_pool_delivery :
    (∀ (W : Nat) (acts : List PAction),
      (∀ a ∈ acts, a ≠ PAction.stop) →
      (∀ j ∈ submittedJobs acts, j.hasOnSuccess = true ∧ j.hasOnError = true) →
      ((submittedJobs acts).map Job.ID).Nodup →
      (submittedJobs acts).length ≤ workerPoolQueueCapacity →
      (∀ e ∈ (runPool (initPool W) acts).events,
        ∃ j ∈ submittedJobs acts, callbackMatches j e) ∧
      (eventIds (runPool (initPool W) acts)).Nodup ∧
      (pendingJobs (runPool (initPool W) acts) = [] →
        (eventIds (runPool (initPool W) acts)).Perm ((submittedJobs acts).map Job.ID))) ∧
    (∀ (W : Nat) (acts : List PAction),
      (∀ a ∈ acts, a ≠ PAction.stop) →
      (∀ j ∈ submittedJobs acts,
        j.Handler j.Data = .ok () ∧ j.hasOnSuccess = true ∧ j.hasOnError = true) →
      ((submittedJobs acts).map Job.ID).Nodup →
      (submittedJobs acts).length ≤ workerPoolQueueCapacity →
      ∀ e ∈ (runPool (initPool W) acts).events, e.isFailure = false) := by
  have main : ∀ (W : Nat) (acts : List PAction),
      (∀ a ∈ acts, a ≠ PAction.stop) →
      (∀ j ∈ submittedJobs acts, j.hasOnSuccess = true ∧ j.hasOnError = true) →
      ((submittedJobs acts).map Job.ID).Nodup →
      (submittedJobs acts).length ≤ workerPoolQueueCapacity →
      (∀ e ∈ (runPool (initPool W) acts).events,
        ∃ j ∈ submittedJobs acts, callbackMatches j e) ∧
      (eventIds (runPool (initPool W) acts)).Nodup ∧
      (pendingJobs (runPool (initPool W) acts) = [] →
        (eventIds (runPool (initPool W) acts)).Perm ((submittedJobs acts).map Job.ID)) := by
    intro W acts h1 h2 h3 h4
    have hinv := pool_invariant acts [] (initPool W) rfl h1
      (by
        intro j hj
        simp [pendingJobs, initPool, procJobs_replicate_idle] at hj)
      (by intro j hj; simp at hj)
      h2
      (by intro e he; simp [initPool] at he)
      (by simp [poolMeasure, pendingIds, eventIds, pendingJobs, initPool,
            procJobs_replicate_idle])
      (by simpa using h4)
    simp only [List.nil_append] at hinv
    obtain ⟨hp, he, hm⟩ := hinv
    have hm2 : ((pendingIds (runPool (initPool W) acts)
        ++ eventIds (runPool (initPool W) acts) : List String) : Multiset String)
        = (((submittedJobs acts).map Job.ID : List String) : Multiset String) := by
      rw [← Multiset.coe_add]
      exact hm
    have hperm : (pendingIds (runPool (initPool W) acts)
        ++ eventIds (runPool (initPool W) acts)).Perm ((submittedJobs acts).map Job.ID) :=
      Multiset.coe_eq_coe.mp hm2
    refine ⟨he, ?_, ?_⟩
    · exact List.Nodup.of_append_right ((List.Perm.nodup_iff hperm).mpr h3)
    · intro hempty
      have hpe : pendingIds (runPool (initPool W) acts) = [] := by
        simp [pendingIds, hempty]
      rw [hpe] at hperm
      simpa using hperm
  refine ⟨main, ?_⟩
  intro W acts h1 h2 h3 h4 e he
  have hres := main W acts h1 (fun j hj => (h2 j hj).2) h3 h4
  rcases hres.1 e he with ⟨j, hj, hmatch⟩
  cases e with
  | success i => rfl
  | failure i err =>
    exfalso
    have hok := (h2 j hj).1
    have herr := hmatch.2.1
    rw [hok] at herr
    exact Except.noConfusion herr

def c7JobA : Job :=
  { ID := "job-a", Data := "da", Handler := fun _ => .ok (),
    hasOnSuccess := true, hasOnError := true }

def c7JobB : Job :=
  { ID := "job-b", Data := "db", Handler := fun _ => .ok (),
    hasOnSuccess := true, hasOnError := true }

def c7Acts : List PAction :=
  [.submit c7JobA false, .submit c7JobB false, .take 0, .finish 0, .take 0, .finish 0]

/-- **C7 witness.** One worker, two always-succeeding jobs, run to drain:
the fired callbacks are a permutation of the two submitted ids (exactly
two success invocations), pairwise distinct, and none is a failure. -/
theorem c7_worker_pool_delivery_witness :
    (eventIds (runPool (initPool 1) c7Acts)).Nodup ∧
    (eventIds (runPool (initPool 1) c7Acts)).Perm ((submittedJobs c7Acts).map Job.ID) ∧
    (∀ e ∈ (runPool (initPool 1) c7Acts).events, e.isFailure = false) := by
  have hnostop : ∀ a ∈ c7Acts, a ≠ PAction.stop := by
    intro a ha
    simp [c7Acts] at ha
    rcases ha with rfl | rfl | rfl | rfl | rfl | rfl <;> simp
  have hsub : submittedJobs c7Acts = [c7JobA, c7JobB] := rfl
  have hflags : ∀ j ∈ submittedJobs c7Acts,
      j.Handler j.Data = .ok () ∧ j.hasOnSuccess = true ∧ j.hasOnError = true := by
    intro j hj
    rw [hsub] at hj
    rcases List.mem_cons.mp hj with rfl | hj
    · exact ⟨rfl, rfl, rfl⟩
    · rcases List.mem_cons.mp hj with rfl | hj
      · exact ⟨rfl, rfl, rfl⟩
      · simp at hj
  have hnd : ((submittedJobs c7Acts).map Job.ID).Nodup := by
    rw [hsub]
    decide
  have hlen : (submittedJobs c7Acts).length ≤ workerPoolQueueCapacity := by
    rw [hsub]
    decide
  have h1 := c7_worker_pool_delivery.1 1 c7Acts hnostop
    (fun j hj => (hflags j hj).2) hnd hlen
  have h2 := c7_worker_pool_delivery.2 1 c7Acts hnostop hflags hnd hlen
  exact ⟨h1.2.1, h1.2.2 rfl, h2⟩

end ActivityLogSvc
